import Mathlib

/-!
Verification of `dsm/datasets.py` (Deep Survival Machines data loading).

A shallow embedding of the data-loading utilities of the repository:
the censoring augmenter `increase_censoring`, the PBC and SUPPORT dataset
readers, and the `load_dataset` dispatcher.

Modelling conventions:
* numpy float arrays become `List ℚ`; arrays that may hold NaN ("missing")
  entries become `List (Option ℚ)` with `none` standing for NaN.
* Randomness is explicit: the Bernoulli mask drawn by
  `np.random.choice([False, True], n, p=[1-p, p])` is a `List Bool`
  parameter, and each call `np.random.uniform(low, high)` is modelled by
  its documented computation `low + (high - low) * u` where `u` is a
  unit-interval random from `[0, 1)` (numpy: "Samples are uniformly
  distributed over the half-open interval [low, high)"); the unit randoms
  are a `List ℚ` parameter consumed in order.
* The packaged CSV files `datasets/pbc2.csv` and `datasets/support2.csv`
  are data assets, not source code, so the readers are functions of the
  parsed table, a list of row structures holding exactly the columns the
  source reads.
* `sklearn.preprocessing.StandardScaler` divides each centred column by
  `sqrt(variance)` (or by 1 when the variance is 0), which is irrational
  in general; the per-column scales are therefore passed as a parameter,
  constrained in the theorems by `IsScaleOf` (σ ≥ 0 and σ² = variance,
  with σ = 1 for a zero-variance column).
* In-place mutation of the numpy arrays behind `e` and `t` is modelled by
  an explicit store mapping references to array contents.
-/

namespace DSM

/-! ## Censoring augmenter (`increase_censoring`) -/

/-- numpy `np.where(e == 1)[0]`: the (increasing) list of indices whose
entry equals 1. -/
def npWhereEq1 (e : List ℚ) : List Nat :=
  (List.range e.length).filter (fun i => decide (e.getD i 0 = 1))

/-- numpy boolean-mask indexing `idxs[mask]`: keep the elements of `idxs`
whose corresponding mask entry is `true`. -/
def selectMask (idxs : List Nat) (mask : List Bool) : List Nat :=
  ((idxs.zip mask).filter (fun p => p.2)).map (fun p => p.1)

/-- numpy `np.random.uniform(lo, hi)` with unit random `u ∈ [0, 1)`:
the documented computation `lo + (hi - lo) * u`.  numpy draws samples
"uniformly distributed over the half-open interval [low, high)"; it does
not validate `lo < hi`, and for `hi ≤ lo` the same formula silently
produces values in `(hi, lo]`. -/
def uniformDraw (lo hi u : ℚ) : ℚ := lo + (hi - lo) * u

/-- Model of `increase_censoring(e, t, p)` from `dsm/datasets.py`, with the
randomness made explicit: `mask` is the list of Bernoulli(p) outcomes for
the indices `uncens = np.where(e == 1)[0]` (in order), and `us` the list
of unit-interval randoms backing the calls `np.random.uniform(1, t__)`,
one per selected index, in the order of `toswitch`.  The source mutates
`e` and `t` at the selected indices (`e[toswitch] = 0`,
`t[toswitch] = newt`); here the updated array contents are returned
(see `increase_censoring_call` for the in-place view). -/
def increase_censoring (e t : List ℚ) (mask : List Bool) (us : List ℚ) :
    List ℚ × List ℚ :=
  let uncens := npWhereEq1 e
  let toswitch := selectMask uncens mask
  let e2 := (List.range e.length).map (fun i =>
    if i ∈ toswitch then 0 else e.getD i 0)
  let t2 := (List.range t.length).map (fun i =>
    if i ∈ toswitch then uniformDraw 1 (t.getD i 0) (us.getD (toswitch.indexOf i) 0)
    else t.getD i 0)
  (e2, t2)

/-- A store of numpy arrays: a reference (Python object identity) maps to
the array contents currently held by that object. -/
def Store : Type := Nat → List ℚ

/-- Overwrite the contents of the array behind reference `r`. -/
def Store.update (s : Store) (r : Nat) (v : List ℚ) : Store :=
  fun q => if q = r then v else s q

/-- The caller-visible effect of `increase_censoring(e, t, p)`: the caller
passes references `re`, `rt` to the `e` and `t` arrays held in store `s`;
the source mutates both arrays in place (`e[toswitch] = 0`,
`t[toswitch] = newt`) and then `return e, t` returns the very same
references.  The model assumes `e` and `t` are distinct arrays
(`re ≠ rt`), as at every call site of the source. -/
def increase_censoring_call (s : Store) (re rt : Nat) (mask : List Bool)
    (us : List ℚ) : Store × Nat × Nat :=
  let r := increase_censoring (s re) (s rt) mask us
  ((Store.update (Store.update s re r.1) rt r.2), re, rt)

/-! ## Shared preprocessing helpers (pandas / sklearn semantics) -/

/-- Model of the `pd.get_dummies` category list for one column: the distinct non-null
values, in ascending (lexicographic) order.  `none` (NaN) values do not
produce a category (pandas default `dummy_na=False`). -/
def sortedCats (vals : List (Option String)) : List String :=
  List.insertionSort (· ≤ ·) (vals.filterMap id).dedup

/-- Model of the `pd.get_dummies` indicator vector of one value for one column: one
binary entry per category; a `none` (NaN) value yields all zeros. -/
def dummyVec (cats : List String) (v : Option String) : List ℚ :=
  cats.map (fun c => if v = some c then 1 else 0)

/-- Mean of the present (non-NaN) entries of a column; the convention
`0 / 0 = 0` covers the all-missing column (where sklearn would drop the
column instead — a column-count difference that none of the verified
claims depend on, since it never removes rows). -/
def optMean (col : List (Option ℚ)) : ℚ :=
  (col.filterMap id).sum / ((col.filterMap id).length : ℚ)

/-- Column `j` of a matrix with possibly-missing entries. -/
def column (m : List (List (Option ℚ))) (j : Nat) : List (Option ℚ) :=
  m.map (fun row => row.getD j none)

/-- Model of `SimpleImputer(missing_values=np.nan, strategy='mean').fit_transform`:
replace each missing entry by the mean of its column's present entries. -/
def imputeMatrix (m : List (List (Option ℚ))) : List (List ℚ) :=
  m.map (fun row => (List.range row.length).map (fun j =>
    (row.getD j none).getD (optMean (column m j))))

/-- Column `j` of a fully numeric matrix. -/
def qcolumn (m : List (List ℚ)) (j : Nat) : List ℚ :=
  m.map (fun row => row.getD j 0)

/-- Sample mean of a list (sklearn uses the full-column mean). -/
def listMean (l : List ℚ) : ℚ := l.sum / (l.length : ℚ)

/-- Sample variance of a list, with denominator `n` (sklearn
`StandardScaler` uses the biased estimator). -/
def listVar (l : List ℚ) : ℚ :=
  ((l.map (fun v => (v - listMean l) ^ 2)).sum) / (l.length : ℚ)

/-- The relation between a column's variance `v` and the scale `σ` that
`StandardScaler` divides by: `σ = sqrt v` when `v ≠ 0` (so `σ > 0` and
`σ² = v`), and `σ = 1` when `v = 0` (sklearn `_handle_zeros_in_scale`). -/
def IsScaleOf (v σ : ℚ) : Prop := (v = 0 ∧ σ = 1) ∨ (0 < v ∧ 0 < σ ∧ σ ^ 2 = v)

/-- Model of `StandardScaler().fit_transform`: centre every column at its mean and
divide by the per-column scale (passed explicitly as `σs`, since
`sqrt(variance)` is irrational in general). -/
def scaleMatrix (m : List (List ℚ)) (σs : List ℚ) : List (List ℚ) :=
  m.map (fun row => (List.range row.length).map (fun j =>
    (row.getD j 0 - listMean (qcolumn m j)) / σs.getD j 1))

/-- numpy boolean-mask row selection `arr[keep]`, also used for the
pandas boolean-series selections `x_[data['id'] == id_]`. -/
def maskRows {α : Type} (rows : List α) (keep : List Bool) : List α :=
  ((rows.zip keep).filter (fun p => p.2)).map (fun p => p.1)

/-! ## PBC reader (`_load_pbc_dataset`) -/

/-- One parsed row of `datasets/pbc2.csv`, restricted to the columns the
source reads.  Categorical cells are `Option String` (`none` = NaN);
`histologic` is a plain `String` because the source coerces the column
with `astype(str)` before encoding (a NaN cell becomes the string
`"nan"`, so the coerced column has no missing values).  The numeric
laboratory covariates may be missing; `age`, `years`, `year`, `status2`
and `id` are the registry fields the source uses without imputation. -/
structure PBCRow where
  drug : Option String
  sex : Option String
  ascites : Option String
  hepatomegaly : Option String
  spiders : Option String
  edema : Option String
  histologic : String
  serBilir : Option ℚ
  serChol : Option ℚ
  albumin : Option ℚ
  alkaline : Option ℚ
  SGOT : Option ℚ
  platelets : Option ℚ
  prothrombin : Option ℚ
  age : ℚ
  years : ℚ
  year : ℚ
  status2 : ℚ
  id : ℚ
deriving DecidableEq

/-- The categorical block `dat_cat`, in the source's column order
`['drug', 'sex', 'ascites', 'hepatomegaly', 'spiders', 'edema',
'histologic']`, as accessor functions. -/
def pbcCatAccessors : List (PBCRow → Option String) :=
  [fun r => r.drug, fun r => r.sex, fun r => r.ascites,
   fun r => r.hepatomegaly, fun r => r.spiders, fun r => r.edema,
   fun r => some r.histologic]

/-- One row of `x1 = pd.get_dummies(dat_cat).values`: the concatenated
indicator vectors of the seven categorical columns, category lists
computed over the whole table. -/
def pbc_x1row (tbl : List PBCRow) (r : PBCRow) : List ℚ :=
  (pbcCatAccessors.map (fun f => dummyVec (sortedCats (tbl.map f)) (f r))).flatten

/-- One row of `x2 = dat_num.values`: the seven numeric laboratory
columns `['serBilir', 'serChol', 'albumin', 'alkaline', 'SGOT',
'platelets', 'prothrombin']`. -/
def pbc_x2row (r : PBCRow) : List (Option ℚ) :=
  [r.serBilir, r.serChol, r.albumin, r.alkaline, r.SGOT, r.platelets,
   r.prothrombin]

/-- The matrix `x = np.hstack([x1, x2, x3])` before imputation: dummies, numeric
block, then the derived age column `x3 = (data['age'] + data['years'])`
reshaped to a single trailing column. -/
def pbc_xraw (tbl : List PBCRow) : List (List (Option ℚ)) :=
  tbl.map (fun r =>
    (pbc_x1row tbl r).map some ++ pbc_x2row r ++ [some (r.age + r.years)])

/-- The PBC covariate matrix after mean imputation. -/
def pbc_ximp (tbl : List PBCRow) : List (List ℚ) :=
  imputeMatrix (pbc_xraw tbl)

/-- The matrix `x_ = StandardScaler().fit_transform(x)`: the flat PBC covariate
matrix the reader returns (and slices in sequential mode). -/
def pbc_x (tbl : List PBCRow) (σs : List ℚ) : List (List ℚ) :=
  scaleMatrix (pbc_ximp tbl) σs

/-- The array `time = (data['years'] - data['year']).values`. -/
def pbc_time (tbl : List PBCRow) : List ℚ :=
  tbl.map (fun r => r.years - r.year)

/-- The array `event = data['status2'].values`. -/
def pbc_event (tbl : List PBCRow) : List ℚ :=
  tbl.map (fun r => r.status2)

/-- The list `sorted(list(set(data['id'])))`: the distinct subject identifiers in
ascending order. -/
def subjectIds (tbl : List PBCRow) : List ℚ :=
  List.insertionSort (· ≤ ·) (tbl.map (fun r => r.id)).dedup

/-- The boolean series `data['id'] == id_`. -/
def idMask (tbl : List PBCRow) (v : ℚ) : List Bool :=
  tbl.map (fun r => decide (r.id = v))

/-- Sequential-mode covariates: `x.append(x_[data['id'] == id_])` for
each distinct id in ascending order. -/
def pbc_seqx (tbl : List PBCRow) (σs : List ℚ) : List (List (List ℚ)) :=
  (subjectIds tbl).map (fun v => maskRows (pbc_x tbl σs) (idMask tbl v))

/-- Sequential-mode times: `t.append(time[data['id'] == id_])`. -/
def pbc_seqt (tbl : List PBCRow) : List (List ℚ) :=
  (subjectIds tbl).map (fun v => maskRows (pbc_time tbl) (idMask tbl v))

/-- Sequential-mode events: `e.append(event[data['id'] == id_])`. -/
def pbc_seqe (tbl : List PBCRow) : List (List ℚ) :=
  (subjectIds tbl).map (fun v => maskRows (pbc_event tbl) (idMask tbl v))

/-! ## SUPPORT reader (`_load_support_dataset`) -/

/-- One parsed row of `datasets/support2.csv`, restricted to the columns
the source reads (`numco` stands for the CSV column `num.co` and `dtime`
for `d.time`).  The 18 numeric covariates may be missing; `d.time` may be
missing (the source filters on `np.isnan(t)`); `death` is the binary
event indicator. -/
structure SupportRow where
  age : Option ℚ
  numco : Option ℚ
  meanbp : Option ℚ
  wblc : Option ℚ
  hrt : Option ℚ
  resp : Option ℚ
  temp : Option ℚ
  pafi : Option ℚ
  alb : Option ℚ
  bili : Option ℚ
  crea : Option ℚ
  sod : Option ℚ
  ph : Option ℚ
  glucose : Option ℚ
  bun : Option ℚ
  urine : Option ℚ
  adlp : Option ℚ
  adls : Option ℚ
  sex : Option String
  dzgroup : Option String
  dzclass : Option String
  income : Option String
  race : Option String
  ca : Option String
  dtime : Option ℚ
  death : ℚ
deriving DecidableEq

/-- The numeric block `x1`, in the source's column order. -/
def supNumAccessors : List (SupportRow → Option ℚ) :=
  [fun r => r.age, fun r => r.numco, fun r => r.meanbp, fun r => r.wblc,
   fun r => r.hrt, fun r => r.resp, fun r => r.temp, fun r => r.pafi,
   fun r => r.alb, fun r => r.bili, fun r => r.crea, fun r => r.sod,
   fun r => r.ph, fun r => r.glucose, fun r => r.bun, fun r => r.urine,
   fun r => r.adlp, fun r => r.adls]

/-- The categorical block `catfeats = ['sex', 'dzgroup', 'dzclass',
'income', 'race', 'ca']`, as accessor functions. -/
def supCatAccessors : List (SupportRow → Option String) :=
  [fun r => r.sex, fun r => r.dzgroup, fun r => r.dzclass,
   fun r => r.income, fun r => r.race, fun r => r.ca]

/-- One row of `x2 = pd.get_dummies(data[catfeats])`. -/
def support_x2row (tbl : List SupportRow) (r : SupportRow) : List ℚ :=
  (supCatAccessors.map (fun f => dummyVec (sortedCats (tbl.map f)) (f r))).flatten

/-- The matrix `x = np.concatenate([x1, x2], axis=1)` before imputation: the 18
numeric columns first, then the one-hot encoded categorical block. -/
def support_xraw (tbl : List SupportRow) : List (List (Option ℚ)) :=
  tbl.map (fun r =>
    supNumAccessors.map (fun f => f r) ++ (support_x2row tbl r).map some)

/-- The SUPPORT covariate matrix after mean imputation. -/
def support_ximp (tbl : List SupportRow) : List (List ℚ) :=
  imputeMatrix (support_xraw tbl)

/-- The SUPPORT covariate matrix after imputation and standardization,
before the missing-time row filter. -/
def support_xscaled (tbl : List SupportRow) (σs : List ℚ) : List (List ℚ) :=
  scaleMatrix (support_ximp tbl) σs

/-- The array `t = data['d.time'].values` (may contain NaN). -/
def support_traw (tbl : List SupportRow) : List (Option ℚ) :=
  tbl.map (fun r => r.dtime)

/-- The array `e = data['death'].values`. -/
def support_eraw (tbl : List SupportRow) : List ℚ :=
  tbl.map (fun r => r.death)

/-- The mask `remove = ~np.isnan(t)`: the row mask keeping exactly the rows whose
time is present. -/
def support_keep (tbl : List SupportRow) : List Bool :=
  tbl.map (fun r => r.dtime.isSome)

/-- The slice `x[remove]`: the covariate matrix the SUPPORT reader returns. -/
def support_x (tbl : List SupportRow) (σs : List ℚ) : List (List ℚ) :=
  maskRows (support_xscaled tbl σs) (support_keep tbl)

/-- The slice `t[remove]`: the time array the SUPPORT reader returns. -/
def support_t (tbl : List SupportRow) : List (Option ℚ) :=
  maskRows (support_traw tbl) (support_keep tbl)

/-- The slice `e[remove]`: the event array the SUPPORT reader returns. -/
def support_e (tbl : List SupportRow) : List ℚ :=
  maskRows (support_eraw tbl) (support_keep tbl)

/-! ## Dispatcher (`load_dataset`) -/

/-- The value a `load_dataset` call evaluates to: a SUPPORT flat triple,
a PBC flat triple, a PBC sequential triple, or — on an unrecognized
dataset name — the `NotImplementedError('Dataset ...')` object that the
source constructs and returns (without raising). -/
inductive LoadResult : Type where
  | flatS : List (List ℚ) → List (Option ℚ) → List ℚ → LoadResult
  | flatP : List (List ℚ) → List ℚ → List ℚ → LoadResult
  | seqP : List (List (List ℚ)) → List (List ℚ) → List (List ℚ) → LoadResult
  | errObj : String → LoadResult
deriving DecidableEq

/-- Model of `_load_support_dataset()`: the returned triple `x[remove], t[remove],
e[remove]`. -/
def load_support_dataset (tbl : List SupportRow) (σs : List ℚ) : LoadResult :=
  .flatS (support_x tbl σs) (support_t tbl) (support_e tbl)

/-- Model of `_load_pbc_dataset(sequential)`: the flat triple when `sequential` is
false, the per-subject triple otherwise. -/
def load_pbc_dataset (tbl : List PBCRow) (σs : List ℚ) (sequential : Bool) :
    LoadResult :=
  if ¬ sequential then .flatP (pbc_x tbl σs) (pbc_time tbl) (pbc_event tbl)
  else .seqP (pbc_seqx tbl σs) (pbc_seqt tbl) (pbc_seqe tbl)

/-- The default of the `dataset` parameter of `load_dataset`. -/
def defaultDataset : String := "SUPPORT"

/-- Model of `load_dataset(dataset='SUPPORT', **kwargs)`.  `kwargs` is the
optional `sequential` entry (`kwargs.get('sequential', False)`); the two
tables and scale lists stand for the packaged CSV assets and the
sklearn-computed scales.  A raised Python exception would be
`Except.error`; the source never raises — on an unrecognized name it
*returns* the constructed `NotImplementedError` object, modelled as
`Except.ok (.errObj msg)`. -/
def load_dataset (dataset : String) (kwargs : Option Bool)
    (sup : List SupportRow) (supScales : List ℚ)
    (pbc : List PBCRow) (pbcScales : List ℚ) : Except String LoadResult :=
  if dataset = "SUPPORT" then .ok (load_support_dataset sup supScales)
  else if dataset = "PBC" then
    .ok (load_pbc_dataset pbc pbcScales (kwargs.getD false))
  else .ok (.errObj ("Dataset " ++ dataset ++ " not implemented."))

/-- A call `load_dataset(**kwargs)` that omits the `dataset` argument:
Python fills in the declared default. -/
def load_dataset_default (kwargs : Option Bool)
    (sup : List SupportRow) (supScales : List ℚ)
    (pbc : List PBCRow) (pbcScales : List ℚ) : Except String LoadResult :=
  load_dataset defaultDataset kwargs sup supScales pbc pbcScales


/-! ## Concrete fixture tables

Tiny hand-written tables used to instantiate the theorems on concrete
inputs.  `ptblW` has two rows that differ only in `serBilir` (and `id`),
so after encoding the `serBilir` column of the covariate matrix is
`[0, 2]` (mean 1, variance 1); `stblW` has two rows that differ only in
`age`, making the first covariate column `[0, 2]` as well. -/

/-- Fixture PBC row: all optional cells missing, `histologic = "1"`,
`serBilir = 0`, all registry fields 0. -/
def pbcRowW1 : PBCRow :=
  ⟨none, none, none, none, none, none, "1", some 0, none, none, none,
   none, none, none, 0, 0, 0, 0, 0⟩

/-- Fixture PBC row: like `pbcRowW1` but `serBilir = 2` and `id = 1`. -/
def pbcRowW2 : PBCRow :=
  ⟨none, none, none, none, none, none, "1", some 2, none, none, none,
   none, none, none, 0, 0, 0, 0, 1⟩

/-- Fixture PBC table. -/
def ptblW : List PBCRow := [pbcRowW1, pbcRowW2]

/-- Fixture SUPPORT row: `age = 0`, every other optional cell missing,
`d.time = 5`, `death = 1`. -/
def supRowW1 : SupportRow :=
  ⟨some 0, none, none, none, none, none, none, none, none, none, none,
   none, none, none, none, none, none, none, none, none, none, none,
   none, none, some 5, 1⟩

/-- Fixture SUPPORT row: like `supRowW1` but `age = 2`, `d.time = 6`,
`death = 0`. -/
def supRowW2 : SupportRow :=
  ⟨some 2, none, none, none, none, none, none, none, none, none, none,
   none, none, none, none, none, none, none, none, none, none, none,
   none, none, some 6, 0⟩

/-- Fixture SUPPORT table. -/
def stblW : List SupportRow := [supRowW1, supRowW2]

end DSM

namespace DSM

/-! ## Helper lemmas: censoring augmenter -/

lemma getD_range_map (n : Nat) (f : Nat → ℚ) (i : Nat) (h : i < n) :
    ((List.range n).map f).getD i 0 = f i := by
  rw [List.getD_eq_getElem _ _ (by simpa using h)]
  simp

lemma mem_npWhereEq1 {e : List ℚ} {i : Nat} :
    i ∈ npWhereEq1 e ↔ i < e.length ∧ e.getD i 0 = 1 := by
  simp [npWhereEq1, List.mem_filter, List.mem_range]

lemma selectMask_subset {idxs : List Nat} {mask : List Bool} {i : Nat}
    (h : i ∈ selectMask idxs mask) : i ∈ idxs := by
  simp only [selectMask, List.mem_map, List.mem_filter] at h
  obtain ⟨p, ⟨hp, _⟩, rfl⟩ := h
  exact (List.of_mem_zip hp).1

lemma getD_mem {l : List ℚ} {i : Nat} (h : i < l.length) : l.getD i 0 ∈ l := by
  rw [List.getD_eq_getElem _ _ h]
  exact List.getElem_mem h

end DSM

namespace DSM

/-- C2, counterexample to the claim as stated.  With `e = [1]`, `t = [2]`
(every entry greater than 1) and the index 0 selected by the Bernoulli
trial, the unit random `u = 0` — an admissible outcome of numpy's
`uniform`, whose samples cover the half-open interval `[low, high)`
including `low` — makes `np.random.uniform(1, 2)` return exactly 1, so
the resulting `t[0] = 1` does *not* lie strictly between 1 and the
original `t[0] = 2`. -/
theorem increase_censoring_open_interval_cex :
    (∀ v ∈ ([2] : List ℚ), 1 < v) ∧
    ((0 : ℚ) ≤ 0 ∧ (0 : ℚ) < 1) ∧
    0 ∈ selectMask (npWhereEq1 [1]) [true] ∧
    (increase_censoring [1] [2] [true] [0]).2.getD 0 0 = 1 ∧
    ¬ (1 < (increase_censoring [1] [2] [true] [0]).2.getD 0 0) := by
  refine ⟨by norm_num, by norm_num, by decide, ?_, ?_⟩ <;>
    norm_num [increase_censoring, npWhereEq1, selectMask, uniformDraw,
      List.range_succ]

/-- C2 (amended): for `e`, `t` of equal length with every time entry
greater than 1, any Bernoulli outcome `mask` and any admissible
unit-interval randoms `us` (numpy draws from `[0, 1)`), every index not
selected keeps its `e` and `t` entries unchanged, and every selected
index gets `e = 0` and a new time in the half-open interval
`[1, original t)` — at least 1 (numpy's uniform includes its lower
bound, so "strictly greater than 1" can fail) and strictly below the
original time. -/
theorem increase_censoring_selection_bounds
    (e t : List ℚ) (mask : List Bool) (us : List ℚ)
    (hlen : e.length = t.length)
    (ht : ∀ v ∈ t, 1 < v)
    (hus : ∀ u ∈ us, 0 ≤ u ∧ u < 1)
    (husLen : (selectMask (npWhereEq1 e) mask).length ≤ us.length) :
    ∀ i < e.length,
      (i ∉ selectMask (npWhereEq1 e) mask →
        (increase_censoring e t mask us).1.getD i 0 = e.getD i 0 ∧
        (increase_censoring e t mask us).2.getD i 0 = t.getD i 0) ∧
      (i ∈ selectMask (npWhereEq1 e) mask →
        (increase_censoring e t mask us).1.getD i 0 = 0 ∧
        1 ≤ (increase_censoring e t mask us).2.getD i 0 ∧
        (increase_censoring e t mask us).2.getD i 0 < t.getD i 0) := by
  intro i hi
  have hit : i < t.length := hlen ▸ hi
  constructor
  · intro hns
    constructor
    · rw [show (increase_censoring e t mask us).1 =
        (List.range e.length).map (fun j =>
          if j ∈ selectMask (npWhereEq1 e) mask then 0 else e.getD j 0) from rfl,
        getD_range_map _ _ _ hi, if_neg hns]
    · rw [show (increase_censoring e t mask us).2 =
        (List.range t.length).map (fun j =>
          if j ∈ selectMask (npWhereEq1 e) mask then
            uniformDraw 1 (t.getD j 0)
              (us.getD ((selectMask (npWhereEq1 e) mask).indexOf j) 0)
          else t.getD j 0) from rfl,
        getD_range_map _ _ _ hit, if_neg hns]
  · intro hs
    refine ⟨?_, ?_⟩
    · rw [show (increase_censoring e t mask us).1 =
        (List.range e.length).map (fun j =>
          if j ∈ selectMask (npWhereEq1 e) mask then 0 else e.getD j 0) from rfl,
        getD_range_map _ _ _ hi, if_pos hs]
    · rw [show (increase_censoring e t mask us).2 =
        (List.range t.length).map (fun j =>
          if j ∈ selectMask (npWhereEq1 e) mask then
            uniformDraw 1 (t.getD j 0)
              (us.getD ((selectMask (npWhereEq1 e) mask).indexOf j) 0)
          else t.getD j 0) from rfl,
        getD_range_map _ _ _ hit, if_pos hs]
      set sw := selectMask (npWhereEq1 e) mask with hsw
      have hidx : sw.indexOf i < us.length :=
        lt_of_lt_of_le (List.indexOf_lt_length.mpr hs) husLen
      have humem : us.getD (sw.indexOf i) 0 ∈ us := getD_mem hidx
      obtain ⟨hu0, hu1⟩ := hus _ humem
      have htv : 1 < t.getD i 0 := ht _ (getD_mem hit)
      unfold uniformDraw
      constructor
      · nlinarith
      · nlinarith

end DSM

namespace DSM

/-- Witness for `increase_censoring_selection_bounds` at the concrete
input `e = [1]`, `t = [2]`, selected mask `[true]`, unit random `1/2`. -/
theorem increase_censoring_selection_bounds_witness :
    (([1] : List ℚ).length = ([2] : List ℚ).length ∧
     (∀ v ∈ ([2] : List ℚ), 1 < v) ∧
     (∀ u ∈ ([(1 : ℚ)/2] : List ℚ), 0 ≤ u ∧ u < 1) ∧
     (selectMask (npWhereEq1 [1]) [true]).length ≤ ([(1 : ℚ)/2] : List ℚ).length) ∧
    (∀ i < ([1] : List ℚ).length,
      (i ∉ selectMask (npWhereEq1 [1]) [true] →
        (increase_censoring [1] [2] [true] [(1 : ℚ)/2]).1.getD i 0 = ([1] : List ℚ).getD i 0 ∧
        (increase_censoring [1] [2] [true] [(1 : ℚ)/2]).2.getD i 0 = ([2] : List ℚ).getD i 0) ∧
      (i ∈ selectMask (npWhereEq1 [1]) [true] →
        (increase_censoring [1] [2] [true] [(1 : ℚ)/2]).1.getD i 0 = 0 ∧
        1 ≤ (increase_censoring [1] [2] [true] [(1 : ℚ)/2]).2.getD i 0 ∧
        (increase_censoring [1] [2] [true] [(1 : ℚ)/2]).2.getD i 0 < ([2] : List ℚ).getD i 0)) :=
  ⟨⟨by norm_num, by norm_num, by norm_num, by decide⟩,
   increase_censoring_selection_bounds [1] [2] [true] [(1 : ℚ)/2]
     (by norm_num) (by norm_num) (by norm_num) (by decide)⟩

/-- C7: `increase_censoring` mutates its argument arrays in place and
returns them.  In the store model: the returned pair is exactly the pair
of references the caller passed, and after the call the store holds the
censored contents at those same references (so the caller's originals
reflect the changes); every other array is untouched. -/
theorem increase_censoring_call_inplace (s : Store) (re rt : Nat)
    (mask : List Bool) (us : List ℚ) (hne : re ≠ rt) :
    (increase_censoring_call s re rt mask us).2 = (re, rt) ∧
    (increase_censoring_call s re rt mask us).1 re =
      (increase_censoring (s re) (s rt) mask us).1 ∧
    (increase_censoring_call s re rt mask us).1 rt =
      (increase_censoring (s re) (s rt) mask us).2 ∧
    ∀ q, q ≠ re → q ≠ rt → (increase_censoring_call s re rt mask us).1 q = s q := by
  refine ⟨rfl, ?_, ?_, ?_⟩
  · simp [increase_censoring_call, Store.update, hne]
  · simp [increase_censoring_call, Store.update]
  · intro q hqe hqt
    simp [increase_censoring_call, Store.update, hqe, hqt]

/-- Witness for `increase_censoring_call_inplace`: a store holding
`e = [1]` at reference 0 and `t = [2]` at reference 1. -/
theorem increase_censoring_call_inplace_witness :
    (0 : Nat) ≠ 1 ∧
    ((increase_censoring_call
        (fun q => if q = 0 then [1] else if q = 1 then [2] else [])
        0 1 [true] [0]).2 = (0, 1) ∧
     (increase_censoring_call
        (fun q => if q = 0 then [1] else if q = 1 then [2] else [])
        0 1 [true] [0]).1 0 =
       (increase_censoring
         ((fun q : Nat => if q = 0 then ([1] : List ℚ) else if q = 1 then [2] else []) 0)
         ((fun q : Nat => if q = 0 then ([1] : List ℚ) else if q = 1 then [2] else []) 1)
         [true] [0]).1 ∧
     (increase_censoring_call
        (fun q => if q = 0 then [1] else if q = 1 then [2] else [])
        0 1 [true] [0]).1 1 =
       (increase_censoring
         ((fun q : Nat => if q = 0 then ([1] : List ℚ) else if q = 1 then [2] else []) 0)
         ((fun q : Nat => if q = 0 then ([1] : List ℚ) else if q = 1 then [2] else []) 1)
         [true] [0]).2 ∧
     ∀ q, q ≠ 0 → q ≠ 1 →
       (increase_censoring_call
          (fun q2 => if q2 = 0 then [1] else if q2 = 1 then [2] else [])
          0 1 [true] [0]).1 q =
         (fun q2 : Nat => if q2 = 0 then ([1] : List ℚ) else if q2 = 1 then [2] else []) q) :=
  ⟨by decide,
   increase_censoring_call_inplace
     (fun q => if q = 0 then [1] else if q = 1 then [2] else [])
     0 1 [true] [0] (by decide)⟩

/-- C8: the degenerate sampling range is *not* guarded.  With `e = [1]`,
`t = [0.5]` and index 0 selected, the original time `1/2 ≤ 1` makes the
interval `(1, t[0])` empty; the source still calls
`np.random.uniform(1, 0.5)`, which raises nothing and silently samples
`0.5 + 0.5·u` from the reversed interval — here, with unit random
`u = 1/2`, the call returns `3/4`, so `t[0]` is overwritten with a value
*larger* than the original time while `e[0]` is still flipped to 0:
neither a no-op, nor a clamp, nor a defined error. -/
theorem increase_censoring_degenerate_unguarded :
    ((1 : ℚ)/2 ≤ 1) ∧
    0 ∈ selectMask (npWhereEq1 [1]) [true] ∧
    ((0 : ℚ) ≤ 1/2 ∧ (1 : ℚ)/2 < 1) ∧
    increase_censoring [1] [(1 : ℚ)/2] [true] [(1 : ℚ)/2] = ([0], [3/4]) ∧
    (1 : ℚ)/2 < 3/4 := by
  refine ⟨by norm_num, by decide, by norm_num, ?_, by norm_num⟩
  norm_num [increase_censoring, npWhereEq1, selectMask, uniformDraw,
    List.range_succ]

end DSM

namespace DSM

/-- C1 (code bug): for every dataset name other than `'SUPPORT'` and
`'PBC'`, `load_dataset` does **not** raise — it evaluates to a normally
*returned* value (`Except.ok`, never `Except.error`), namely the
constructed-but-unraised `NotImplementedError('Dataset <name> not
implemented.')` object. -/
theorem load_dataset_unknown_returns_error_object (name : String)
    (h1 : name ≠ "SUPPORT") (h2 : name ≠ "PBC")
    (kwargs : Option Bool) (sup : List SupportRow) (supScales : List ℚ)
    (pbc : List PBCRow) (pbcScales : List ℚ) :
    load_dataset name kwargs sup supScales pbc pbcScales =
      Except.ok (.errObj ("Dataset " ++ name ++ " not implemented.")) := by
  simp [load_dataset, h1, h2]

/-- Witness for `load_dataset_unknown_returns_error_object` at the
name `'UNKNOWN'` with empty packaged tables. -/
theorem load_dataset_unknown_returns_error_object_witness :
    ("UNKNOWN" ≠ "SUPPORT" ∧ "UNKNOWN" ≠ "PBC") ∧
    load_dataset "UNKNOWN" none [] [] [] [] =
      Except.ok (.errObj ("Dataset " ++ "UNKNOWN" ++ " not implemented.")) :=
  ⟨⟨by decide, by decide⟩,
   load_dataset_unknown_returns_error_object "UNKNOWN" (by decide) (by decide)
     none [] [] [] []⟩

/-- C10: omitting the `dataset` argument loads SUPPORT — the parameter
defaults to `'SUPPORT'`, so the call without a name returns exactly what
`load_dataset('SUPPORT', ...)` returns, namely the SUPPORT reader's
triple. -/
theorem load_dataset_default_is_support (kwargs : Option Bool)
    (sup : List SupportRow) (supScales : List ℚ)
    (pbc : List PBCRow) (pbcScales : List ℚ) :
    defaultDataset = "SUPPORT" ∧
    load_dataset_default kwargs sup supScales pbc pbcScales =
      load_dataset "SUPPORT" kwargs sup supScales pbc pbcScales ∧
    load_dataset_default kwargs sup supScales pbc pbcScales =
      Except.ok (load_support_dataset sup supScales) := by
  refine ⟨rfl, rfl, ?_⟩
  simp [load_dataset_default, load_dataset, defaultDataset]

end DSM

namespace DSM

/-! ## Helper lemmas: boolean-mask selection -/

lemma maskRows_nil_left {α : Type} (keep : List Bool) :
    maskRows ([] : List α) keep = [] := by
  simp [maskRows]

lemma maskRows_nil_right {α : Type} (l : List α) : maskRows l [] = [] := by
  simp [maskRows]

lemma maskRows_cons {α : Type} (a : α) (l : List α) (k : Bool) (ks : List Bool) :
    maskRows (a :: l) (k :: ks) =
      if k then a :: maskRows l ks else maskRows l ks := by
  simp only [maskRows, List.zip_cons_cons, List.filter_cons]
  cases k <;> simp

lemma maskRows_length_congr {α β : Type} (l1 : List α) (l2 : List β)
    (keep : List Bool) (h : l1.length = l2.length) :
    (maskRows l1 keep).length = (maskRows l2 keep).length := by
  induction l1 generalizing l2 keep with
  | nil =>
    cases l2 with
    | nil => rfl
    | cons b tb => simp at h
  | cons a ta ih =>
    cases l2 with
    | nil => simp at h
    | cons b tb =>
      cases keep with
      | nil => simp [maskRows_nil_right]
      | cons k ks =>
        simp only [maskRows_cons]
        have hlen : ta.length = tb.length := by simpa using h
        cases k <;> simp [ih tb ks hlen]

lemma maskRows_map_filter {α γ : Type} (tbl : List γ) (f : γ → α) (p : γ → Bool) :
    maskRows (tbl.map f) (tbl.map p) = (tbl.filter p).map f := by
  induction tbl with
  | nil => simp [maskRows_nil_left]
  | cons r tl ih =>
    simp only [List.map_cons, maskRows_cons, List.filter_cons]
    cases hp : p r <;> simp [ih]

lemma maskRows_zip {α γ : Type} (rows : List α) (tbl : List γ) (p : γ → Bool)
    (h : rows.length = tbl.length) :
    maskRows rows (tbl.map p) =
      ((rows.zip tbl).filter (fun q => p q.2)).map Prod.fst := by
  induction rows generalizing tbl with
  | nil => simp [maskRows_nil_left]
  | cons a ta ih =>
    cases tbl with
    | nil => simp at h
    | cons b tb =>
      have hlen : ta.length = tb.length := by simpa using h
      simp only [List.map_cons, maskRows_cons, List.zip_cons_cons,
        List.filter_cons]
      cases hp : p b <;> simp [ih tb hlen]

/-! ## Helper lemmas: partition of the rows by subject key -/

lemma sum_map_ite_eq {κ : Type} [DecidableEq κ] (ids : List κ) (k : κ) (c : Nat) :
    (ids.map (fun v => if k = v then c else 0)).sum = ids.count k * c := by
  induction ids with
  | nil => simp
  | cons v tl ih =>
    by_cases h : k = v
    · subst h
      simp [List.count_cons, ih, Nat.add_mul, Nat.add_comm]
    · simp [h, ih, List.count_cons, Ne.symm h]

lemma flatten_filter_key_perm {β κ : Type} [DecidableEq β] [DecidableEq κ]
    (Z : List β) (key : β → κ) (ids : List κ) (hnd : ids.Nodup)
    (hcov : ∀ z ∈ Z, key z ∈ ids) :
    List.Perm ((ids.map (fun v => Z.filter (fun z => decide (key z = v)))).flatten) Z := by
  rw [List.perm_iff_count]
  intro a
  rw [List.count_flatten, List.map_map]
  have hterm : ∀ v ∈ ids,
      (List.count a ∘ fun v => Z.filter fun z => decide (key z = v)) v =
        (fun v => if key a = v then Z.count a else 0) v := by
    intro v _
    by_cases hv : key a = v
    · simp only [Function.comp_apply, if_pos hv]
      exact List.count_filter (by simpa using hv)
    · simp only [Function.comp_apply, if_neg hv]
      refine List.count_eq_zero.mpr (fun hmem => hv ?_)
      have := List.of_mem_filter hmem
      simpa using this
  rw [List.map_congr_left hterm, sum_map_ite_eq]
  by_cases ha : a ∈ Z
  · rw [List.count_eq_one_of_mem hnd (hcov a ha), Nat.one_mul]
  · rw [List.count_eq_zero.mpr ha, Nat.mul_zero]

/-! ## Helper lemmas: reader lengths and subject ids -/

lemma pbc_x_length (tbl : List PBCRow) (σs : List ℚ) :
    (pbc_x tbl σs).length = tbl.length := by
  simp [pbc_x, scaleMatrix, pbc_ximp, imputeMatrix, pbc_xraw]

lemma support_xscaled_length (tbl : List SupportRow) (σs : List ℚ) :
    (support_xscaled tbl σs).length = tbl.length := by
  simp [support_xscaled, scaleMatrix, support_ximp, imputeMatrix, support_xraw]

lemma subjectIds_nodup (tbl : List PBCRow) : (subjectIds tbl).Nodup := by
  have hperm : List.Perm (subjectIds tbl) (tbl.map (fun r => r.id)).dedup :=
    List.perm_insertionSort _ _
  exact hperm.nodup_iff.mpr (List.nodup_dedup _)

lemma mem_subjectIds {tbl : List PBCRow} {r : PBCRow} (h : r ∈ tbl) :
    r.id ∈ subjectIds tbl := by
  have hperm : List.Perm (subjectIds tbl) (tbl.map (fun r => r.id)).dedup :=
    List.perm_insertionSort _ _
  rw [hperm.mem_iff, List.mem_dedup]
  exact List.mem_map_of_mem _ h

end DSM

namespace DSM

/-- C3: in flat mode `x`, `t`, `e` have equal top-level length (row
count) for both readers; in sequential mode the three returned lists
have equal top-level length (subject count) and, subject by subject, the
three per-subject arrays have equal length. -/
theorem loaders_length_invariant (ptbl : List PBCRow) (pσ : List ℚ)
    (stbl : List SupportRow) (sσ : List ℚ) :
    ((pbc_x ptbl pσ).length = ptbl.length ∧
     (pbc_time ptbl).length = ptbl.length ∧
     (pbc_event ptbl).length = ptbl.length) ∧
    ((pbc_seqx ptbl pσ).length = (pbc_seqt ptbl).length ∧
     (pbc_seqt ptbl).length = (pbc_seqe ptbl).length ∧
     (pbc_seqx ptbl pσ).map List.length = (pbc_seqt ptbl).map List.length ∧
     (pbc_seqt ptbl).map List.length = (pbc_seqe ptbl).map List.length) ∧
    ((support_x stbl sσ).length = (support_t stbl).length ∧
     (support_t stbl).length = (support_e stbl).length) := by
  refine ⟨⟨pbc_x_length ptbl pσ, by simp [pbc_time], by simp [pbc_event]⟩,
    ⟨by simp [pbc_seqx, pbc_seqt], by simp [pbc_seqt, pbc_seqe], ?_, ?_⟩,
    ?_, ?_⟩
  · simp only [pbc_seqx, pbc_seqt, List.map_map]
    refine List.map_congr_left ?_
    intro v _
    simp only [Function.comp_apply]
    exact maskRows_length_congr _ _ _
      (by rw [pbc_x_length]; simp [pbc_time])
  · simp only [pbc_seqt, pbc_seqe, List.map_map]
    refine List.map_congr_left ?_
    intro v _
    simp only [Function.comp_apply]
    exact maskRows_length_congr _ _ _ (by simp [pbc_time, pbc_event])
  · exact maskRows_length_congr _ _ _
      (by rw [support_xscaled_length]; simp [support_traw])
  · exact maskRows_length_congr _ _ _ (by simp [support_traw, support_eraw])

/-- C5: the SUPPORT reader removes exactly the rows whose time is
missing, applying the one mask `~np.isnan(t)` to `x`, `t` and `e` alike:
the returned `t` and `e` are the `d.time` and `death` entries of exactly
the rows with a present time (in original order), the returned `x` is
the row slice of the scaled matrix under the same mask, no returned time
is missing, and every row with a present time is kept — rows with
missing covariates are never removed (imputation keeps the row count at
`tbl.length`). -/
theorem support_time_filter (tbl : List SupportRow) (σs : List ℚ) :
    support_t tbl = (tbl.filter (fun r => r.dtime.isSome)).map (fun r => r.dtime) ∧
    support_e tbl = (tbl.filter (fun r => r.dtime.isSome)).map (fun r => r.death) ∧
    support_x tbl σs =
      (((support_xscaled tbl σs).zip tbl).filter
        (fun q => q.2.dtime.isSome)).map Prod.fst ∧
    (∀ v ∈ support_t tbl, v.isSome) ∧
    (support_t tbl).length = (tbl.filter (fun r => r.dtime.isSome)).length ∧
    (∀ r ∈ tbl, r.dtime.isSome → r.dtime ∈ support_t tbl) ∧
    (support_ximp tbl).length = tbl.length := by
  have ht : support_t tbl =
      (tbl.filter (fun r => r.dtime.isSome)).map (fun r => r.dtime) := by
    simpa only [support_t, support_traw, support_keep] using
      maskRows_map_filter tbl (fun r => r.dtime) (fun r => r.dtime.isSome)
  refine ⟨ht, ?_, ?_, ?_, ?_, ?_, ?_⟩
  · simpa only [support_e, support_eraw, support_keep] using
      maskRows_map_filter tbl (fun r => r.death) (fun r => r.dtime.isSome)
  · simpa only [support_x, support_keep] using
      maskRows_zip (support_xscaled tbl σs) tbl (fun r => r.dtime.isSome)
        (by rw [support_xscaled_length])
  · rw [ht]
    intro v hv
    obtain ⟨r, hr, rfl⟩ := List.mem_map.mp hv
    exact (List.mem_filter.mp hr).2
  · rw [ht, List.length_map]
  · intro r hr hsome
    rw [ht]
    exact List.mem_map_of_mem _ (List.mem_filter.mpr ⟨hr, hsome⟩)
  · simp [support_ximp, imputeMatrix, support_xraw]

/-- C6: the PBC reader's returned flat triple has time
`data['years'] - data['year']` and event `data['status2']` row for row,
and the raw covariate matrix it standardizes carries the derived age
`data['age'] + data['years']` as the last entry of every row (appended
after the one-hot and numeric blocks). -/
theorem pbc_derived_columns (tbl : List PBCRow) (σs : List ℚ) :
    load_pbc_dataset tbl σs false =
      LoadResult.flatP (scaleMatrix (imputeMatrix (pbc_xraw tbl)) σs)
        (tbl.map (fun r => r.years - r.year))
        (tbl.map (fun r => r.status2)) ∧
    (pbc_xraw tbl).map List.getLast? =
      tbl.map (fun r => some (some (r.age + r.years))) := by
  constructor
  · simp [load_pbc_dataset, pbc_x, pbc_ximp, pbc_time, pbc_event]
  · simp only [pbc_xraw, List.map_map]
    refine List.map_congr_left ?_
    intro r _
    simp only [Function.comp_apply]
    rw [show (pbc_x1row tbl r).map some ++ pbc_x2row r ++ [some (r.age + r.years)] =
      ((pbc_x1row tbl r).map some ++ pbc_x2row r) ++ [some (r.age + r.years)] from rfl]
    exact List.getLast?_concat _

end DSM

namespace DSM

/-- C4: loading PBC with `sequential=True` returns one entry per
distinct subject id (for `x`, `t` and `e` alike, with the id list
de-duplicated), in strictly ascending id order; each subject's slice is
the filter of the flat rows with that id, in original row order; and
concatenating all per-subject `x` sequences row-wise is a permutation —
the same multiset of rows — of the flat matrix `x_` produced with
identical preprocessing. -/
theorem pbc_sequential_grouping (tbl : List PBCRow) (σs : List ℚ) :
    ((pbc_seqx tbl σs).length = (subjectIds tbl).length ∧
     (pbc_seqt tbl).length = (subjectIds tbl).length ∧
     (pbc_seqe tbl).length = (subjectIds tbl).length ∧
     (subjectIds tbl).Nodup) ∧
    List.Sorted (· < ·) (subjectIds tbl) ∧
    (pbc_seqx tbl σs = (subjectIds tbl).map (fun v =>
        (((pbc_x tbl σs).zip tbl).filter
          (fun q => decide (q.2.id = v))).map Prod.fst) ∧
     pbc_seqt tbl = (subjectIds tbl).map (fun v =>
        (tbl.filter (fun r => decide (r.id = v))).map (fun r => r.years - r.year)) ∧
     pbc_seqe tbl = (subjectIds tbl).map (fun v =>
        (tbl.filter (fun r => decide (r.id = v))).map (fun r => r.status2))) ∧
    List.Perm (pbc_seqx tbl σs).flatten (pbc_x tbl σs) := by
  have hseqx : pbc_seqx tbl σs = (subjectIds tbl).map (fun v =>
      (((pbc_x tbl σs).zip tbl).filter
        (fun q => decide (q.2.id = v))).map Prod.fst) := by
    refine List.map_congr_left ?_
    intro v _
    simpa only [idMask] using
      maskRows_zip (pbc_x tbl σs) tbl (fun r => decide (r.id = v))
        (pbc_x_length tbl σs)
  refine ⟨⟨by simp [pbc_seqx], by simp [pbc_seqt], by simp [pbc_seqe],
    subjectIds_nodup tbl⟩, ?_, ⟨hseqx, ?_, ?_⟩, ?_⟩
  · have hle : List.Sorted (· ≤ ·) (subjectIds tbl) :=
      List.sorted_insertionSort _ _
    have hnd := subjectIds_nodup tbl
    exact (hle.and hnd).imp (fun h => lt_of_le_of_ne h.1 h.2)
  · refine List.map_congr_left ?_
    intro v _
    simpa only [pbc_time, idMask] using
      maskRows_map_filter tbl (fun r => r.years - r.year)
        (fun r => decide (r.id = v))
  · refine List.map_congr_left ?_
    intro v _
    simpa only [pbc_event, idMask] using
      maskRows_map_filter tbl (fun r => r.status2) (fun r => decide (r.id = v))
  · rw [hseqx]
    have hmm : ((subjectIds tbl).map (fun v =>
        (((pbc_x tbl σs).zip tbl).filter
          (fun q => decide (q.2.id = v))).map Prod.fst)) =
        ((subjectIds tbl).map (fun v =>
          ((pbc_x tbl σs).zip tbl).filter
            (fun q => decide (q.2.id = v)))).map (List.map Prod.fst) := by
      rw [List.map_map]
      rfl
    rw [hmm, ← List.map_flatten]
    have hperm := flatten_filter_key_perm ((pbc_x tbl σs).zip tbl)
      (fun q => q.2.id) (subjectIds tbl) (subjectIds_nodup tbl)
      (fun z hz => mem_subjectIds ((List.of_mem_zip hz).2))
    have := hperm.map Prod.fst
    rwa [List.map_fst_zip _ _ (le_of_eq (pbc_x_length tbl σs))] at this

end DSM

namespace DSM

/-! ## Helper lemmas: standardization -/

lemma sum_map_center_div (l : List ℚ) (μ σ : ℚ) :
    (l.map (fun v => (v - μ)/σ)).sum = (l.sum - l.length * μ)/σ := by
  induction l with
  | nil => simp
  | cons a tl ih =>
    simp only [List.map_cons, List.sum_cons, ih, List.length_cons]
    push_cast
    ring

lemma sum_map_div (l : List ℚ) (g : ℚ → ℚ) (c : ℚ) :
    (l.map (fun v => g v / c)).sum = (l.map g).sum / c := by
  induction l with
  | nil => simp
  | cons a tl ih => simp [ih, div_add_div_same]

lemma listMean_center_div (l : List ℚ) (hl : l.length ≠ 0) (μ σ : ℚ) :
    listMean (l.map (fun v => (v - μ)/σ)) = (listMean l - μ)/σ := by
  unfold listMean
  rw [List.length_map, sum_map_center_div]
  have hn : (l.length : ℚ) ≠ 0 := Nat.cast_ne_zero.mpr hl
  field_simp
  ring

lemma listVar_scaled (l : List ℚ) (hl : l.length ≠ 0) (σ : ℚ) :
    listVar (l.map (fun v => (v - listMean l)/σ)) = listVar l / σ ^ 2 := by
  unfold listVar
  rw [listMean_center_div l hl, sub_self, zero_div, List.length_map,
    List.map_map]
  have hpt : ∀ v ∈ l,
      ((fun w => (w - 0) ^ 2) ∘ (fun v => (v - listMean l)/σ)) v =
        (fun v => ((v - listMean l) ^ 2) / σ ^ 2) v := by
    intro v _
    simp [div_pow]
  rw [List.map_congr_left hpt, sum_map_div, div_right_comm]

lemma qcolumn_scaleMatrix (m : List (List ℚ)) (σs : List ℚ) (j : Nat)
    (hj : ∀ row ∈ m, j < row.length) :
    qcolumn (scaleMatrix m σs) j =
      (qcolumn m j).map
        (fun v => (v - listMean (qcolumn m j)) / σs.getD j 1) := by
  simp only [qcolumn, scaleMatrix, List.map_map]
  refine List.map_congr_left ?_
  intro row hrow
  simp only [Function.comp_apply]
  rw [getD_range_map _ _ _ (hj row hrow)]

lemma qcolumn_length (m : List (List ℚ)) (j : Nat) :
    (qcolumn m j).length = m.length := by
  simp [qcolumn]

lemma pbc_ximp_row_length_ge (tbl : List PBCRow) :
    ∀ row ∈ pbc_ximp tbl, 8 ≤ row.length := by
  intro row hrow
  simp only [pbc_ximp, imputeMatrix, List.mem_map] at hrow
  obtain ⟨raw, hraw, rfl⟩ := hrow
  simp only [List.length_map, List.length_range]
  simp only [pbc_xraw, List.mem_map] at hraw
  obtain ⟨r, _, rfl⟩ := hraw
  simp [pbc_x2row]

lemma support_ximp_row_length_ge (tbl : List SupportRow) :
    ∀ row ∈ support_ximp tbl, 18 ≤ row.length := by
  intro row hrow
  simp only [support_ximp, imputeMatrix, List.mem_map] at hrow
  obtain ⟨raw, hraw, rfl⟩ := hrow
  simp only [List.length_map, List.length_range]
  simp only [support_xraw, List.mem_map] at hraw
  obtain ⟨r, _, rfl⟩ := hraw
  simp [supNumAccessors]

lemma maskRows_of_all_true {α : Type} :
    ∀ (l : List α) (keep : List Bool), l.length = keep.length →
      (∀ b ∈ keep, b = true) → maskRows l keep = l := by
  intro l
  induction l with
  | nil =>
    intro keep _ _
    exact maskRows_nil_left keep
  | cons a tl ih =>
    intro keep hlen hall
    cases keep with
    | nil => simp at hlen
    | cons k ks =>
      have hk : k = true := hall k (List.mem_cons_self k ks)
      subst hk
      rw [maskRows_cons, if_pos rfl,
        ih ks (by simpa using hlen) (fun b hb => hall b (List.mem_cons_of_mem _ hb))]

lemma support_x_of_no_missing_time (tbl : List SupportRow) (σs : List ℚ)
    (h : ∀ r ∈ tbl, r.dtime.isSome) :
    support_x tbl σs = support_xscaled tbl σs := by
  refine maskRows_of_all_true _ _ ?_ ?_
  · rw [support_xscaled_length]
    simp [support_keep]
  · intro b hb
    simp only [support_keep, List.mem_map] at hb
    obtain ⟨r, hr, rfl⟩ := hb
    exact h r hr

end DSM

namespace DSM

/-- C9: standardization invariant for the *returned* flat matrices.  For
either reader, consider any covariate column `j`, with the scale `σ_j`
as sklearn computes it (`IsScaleOf`: `σ_j² = variance`) for a
non-constant column (`variance ≠ 0`) of a nonempty table; for SUPPORT
additionally no time value is missing, so the post-scaling row filter
`x[remove]` removes nothing and the returned `support_x` is the scaled
matrix (the packaged `support2.csv` follow-up time is complete — were a
row removed after scaling, the surviving columns would no longer be
standardized).  Then the column of the returned matrix (`pbc_x`, the
flat `x_` for PBC; `support_x` for SUPPORT) has sample mean exactly 0
and sample variance exactly 1 (hence sample standard deviation 1) — the
exact-arithmetic form of "mean ≈ 0, std ≈ 1 within floating-point
tolerance". -/
theorem standardized_columns_mean_var
    (ptbl : List PBCRow) (pσ : List ℚ) (stbl : List SupportRow) (sσ : List ℚ)
    (pj sj : Nat)
    (hp : ptbl ≠ [])
    (hpj : ∀ row ∈ pbc_ximp ptbl, pj < row.length)
    (hpvar : listVar (qcolumn (pbc_ximp ptbl) pj) ≠ 0)
    (hpsc : IsScaleOf (listVar (qcolumn (pbc_ximp ptbl) pj)) (pσ.getD pj 1))
    (hs : stbl ≠ [])
    (hnr : ∀ r ∈ stbl, r.dtime.isSome)
    (hsj : ∀ row ∈ support_ximp stbl, sj < row.length)
    (hsvar : listVar (qcolumn (support_ximp stbl) sj) ≠ 0)
    (hssc : IsScaleOf (listVar (qcolumn (support_ximp stbl) sj)) (sσ.getD sj 1)) :
    (listMean (qcolumn (pbc_x ptbl pσ) pj) = 0 ∧
     listVar (qcolumn (pbc_x ptbl pσ) pj) = 1) ∧
    (listMean (qcolumn (support_x stbl sσ) sj) = 0 ∧
     listVar (qcolumn (support_x stbl sσ) sj) = 1) := by
  rw [support_x_of_no_missing_time stbl sσ hnr]
  have hplen : (qcolumn (pbc_ximp ptbl) pj).length ≠ 0 := by
    rw [qcolumn_length]
    simp only [pbc_ximp, imputeMatrix, pbc_xraw, List.length_map]
    simpa using (List.length_pos.mpr hp).ne.symm
  have hslen : (qcolumn (support_ximp stbl) sj).length ≠ 0 := by
    rw [qcolumn_length]
    simp only [support_ximp, imputeMatrix, support_xraw, List.length_map]
    simpa using (List.length_pos.mpr hs).ne.symm
  have hpcol : qcolumn (pbc_x ptbl pσ) pj =
      (qcolumn (pbc_ximp ptbl) pj).map
        (fun v => (v - listMean (qcolumn (pbc_ximp ptbl) pj)) / pσ.getD pj 1) :=
    qcolumn_scaleMatrix _ _ _ hpj
  have hscol : qcolumn (support_xscaled stbl sσ) sj =
      (qcolumn (support_ximp stbl) sj).map
        (fun v => (v - listMean (qcolumn (support_ximp stbl) sj)) / sσ.getD sj 1) :=
    qcolumn_scaleMatrix _ _ _ hsj
  have hpσ2 : (pσ.getD pj 1) ^ 2 = listVar (qcolumn (pbc_ximp ptbl) pj) := by
    rcases hpsc with ⟨hv, _⟩ | ⟨_, _, hσ⟩
    · exact absurd hv hpvar
    · exact hσ
  have hsσ2 : (sσ.getD sj 1) ^ 2 = listVar (qcolumn (support_ximp stbl) sj) := by
    rcases hssc with ⟨hv, _⟩ | ⟨_, _, hσ⟩
    · exact absurd hv hsvar
    · exact hσ
  refine ⟨⟨?_, ?_⟩, ?_, ?_⟩
  · rw [hpcol, listMean_center_div _ hplen, sub_self, zero_div]
  · rw [hpcol, listVar_scaled _ hplen, hpσ2, div_self hpvar]
  · rw [hscol, listMean_center_div _ hslen, sub_self, zero_div]
  · rw [hscol, listVar_scaled _ hslen, hsσ2, div_self hsvar]

end DSM

namespace DSM

/-- Witness for `standardized_columns_mean_var`: PBC fixture `ptblW`
(column 1, the `serBilir` column `[0, 2]`, scales `[1, 1]`) and SUPPORT
fixture `stblW` (column 0, the `age` column `[0, 2]`, scales `[1]`,
both `d.time` cells present so no row is removed). -/
theorem standardized_columns_mean_var_witness :
    (ptblW ≠ [] ∧
     (∀ row ∈ pbc_ximp ptblW, 1 < row.length) ∧
     listVar (qcolumn (pbc_ximp ptblW) 1) ≠ 0 ∧
     IsScaleOf (listVar (qcolumn (pbc_ximp ptblW) 1)) (([1, 1] : List ℚ).getD 1 1) ∧
     stblW ≠ [] ∧
     (∀ r ∈ stblW, r.dtime.isSome) ∧
     (∀ row ∈ support_ximp stblW, 0 < row.length) ∧
     listVar (qcolumn (support_ximp stblW) 0) ≠ 0 ∧
     IsScaleOf (listVar (qcolumn (support_ximp stblW) 0)) (([1] : List ℚ).getD 0 1)) ∧
    ((listMean (qcolumn (pbc_x ptblW [1, 1]) 1) = 0 ∧
      listVar (qcolumn (pbc_x ptblW [1, 1]) 1) = 1) ∧
     (listMean (qcolumn (support_x stblW [1]) 0) = 0 ∧
      listVar (qcolumn (support_x stblW [1]) 0) = 1)) := by
  have hpcol : qcolumn (pbc_ximp ptblW) 1 = [0, 2] := by decide
  have hscol : qcolumn (support_ximp stblW) 0 = [0, 2] := by decide
  have hpj : ∀ row ∈ pbc_ximp ptblW, 1 < row.length := by
    intro row hrow
    have := pbc_ximp_row_length_ge ptblW row hrow
    omega
  have hsj : ∀ row ∈ support_ximp stblW, 0 < row.length := by
    intro row hrow
    have := support_ximp_row_length_ge stblW row hrow
    omega
  have hpvar : listVar (qcolumn (pbc_ximp ptblW) 1) ≠ 0 := by
    rw [hpcol]
    norm_num [listVar, listMean]
  have hsvar : listVar (qcolumn (support_ximp stblW) 0) ≠ 0 := by
    rw [hscol]
    norm_num [listVar, listMean]
  have hpsc : IsScaleOf (listVar (qcolumn (pbc_ximp ptblW) 1))
      (([1, 1] : List ℚ).getD 1 1) := by
    rw [hpcol]
    right
    norm_num [listVar, listMean]
  have hssc : IsScaleOf (listVar (qcolumn (support_ximp stblW) 0))
      (([1] : List ℚ).getD 0 1) := by
    rw [hscol]
    right
    norm_num [listVar, listMean]
  exact ⟨⟨by decide, hpj, hpvar, hpsc, by decide, by decide, hsj, hsvar, hssc⟩,
    standardized_columns_mean_var ptblW [1, 1] stblW [1] 1 0
      (by decide) hpj hpvar hpsc (by decide) (by decide) hsj hsvar hssc⟩

end DSM
